import Mathlib

/-!
Shallow embedding of the URL feature-extraction pipeline of this repository
(`data_processing.py` and `predict_service.py`), together with the parts of
its library dependencies that the pipeline exercises:

* `urllib.parse.urlparse` / `urlsplit` (CPython 3.11 semantics), including the
  `ValueError("Invalid IPv6 URL")` raise on bracket-imbalanced netlocs;
* `tldextract.extract`, modelled over an explicit fragment of the public
  suffix list (the library itself is an external dependency not in the
  repository);
* the Shannon-entropy helper, with Python floats modelled as real numbers;
* the feature dictionary (a `pandas.Series` keyed by feature name), modelled
  as an ordered association list;
* the column reindex `features[TRAIN_COLUMNS]` and the class-label lookup of
  the prediction service.

Python strings are modelled as lists of characters.  Character classes
(decimal digits in `\d` and `str.isdigit`, `str.lower`, `str.strip`
whitespace) are modelled at ASCII fidelity; their Unicode extensions in
CPython affect none of the inputs the claims exercise.
-/

set_option maxRecDepth 4000
set_option linter.unusedVariables false

abbrev Str := List Char

/-- Character list of a string literal (Python `str` values). -/
def str (s : String) : Str := s.data

/-! ## CPython `urllib.parse` model -/

/-- Models the leading-junk strip of CPython `urlsplit`:
`url.lstrip(_WHATWG_C0_CONTROL_OR_SPACE)` removes leading characters with
code point at most 0x20. -/
def lstripC0 (l : Str) : Str := l.dropWhile (fun c => decide (c.toNat ≤ 32))

/-- Models `url.replace(b, "")` for each of `_UNSAFE_URL_BYTES_TO_REMOVE`
(tab, CR, LF) in CPython `urlsplit`. -/
def removeUnsafeBytes (l : Str) : Str :=
  l.filter (fun c => decide (c ≠ '\t' ∧ c ≠ '\r' ∧ c ≠ '\n'))

/-- Models membership in CPython `urllib.parse.scheme_chars`
(ASCII letters, digits, and the three characters plus, hyphen, dot). -/
def isSchemeChar (c : Char) : Bool :=
  c.isAlpha || c.isDigit || c == '+' || c == '-' || c == '.'

/-- Models the scheme-splitting step of CPython `urlsplit`: the text before
the first colon is taken (lowercased) as the scheme when the colon is not at
position 0, the first character is an ASCII letter, and every character
before the colon is a scheme character.  Returns the scheme and the
remaining url. -/
def splitScheme (url : Str) : Str × Str :=
  let pre := url.takeWhile (· != ':')
  if 0 < pre.length ∧ pre.length < url.length ∧
      (url.headD ' ').isAlpha ∧ pre.all isSchemeChar then
    (pre.map Char.toLower, url.drop (pre.length + 1))
  else
    ([], url)

/-- Models `_splitnetloc` (applied after the leading `//` has been dropped):
the netloc runs up to the first of `/`, `?`, `#`. -/
def splitNetloc (url : Str) : Str × Str :=
  let nl := url.takeWhile (fun c => decide (¬ (c = '/' ∨ c = '?' ∨ c = '#')))
  (nl, url.drop nl.length)

/-- Models Python `s.split(sep, 1)`: the part before the first occurrence of
`c` and, when `c` occurs, the part after it. -/
def splitFirst (l : Str) (c : Char) : Str × Option Str :=
  let pre := l.takeWhile (· != c)
  if pre.length < l.length then (pre, some (l.drop (pre.length + 1))) else (l, none)

/-- Models Python `s.find(c)`: index of the first occurrence of `c`, if any. -/
def findChar (l : Str) (c : Char) : Option Nat :=
  let pre := l.takeWhile (· != c)
  if pre.length < l.length then some pre.length else none

/-- Models Python `s.rfind(c)`: index of the last occurrence of `c`, if any. -/
def rfindChar (l : Str) (c : Char) : Option Nat :=
  (findChar l.reverse c).map (fun i => l.length - 1 - i)

/-- Models `urllib.parse._splitparams`, which is only called when `;` occurs
in the path: when the path contains `/` the search for `;` starts at the last
`/`, otherwise at the start; the path is cut at the found index. -/
def splitParams (path : Str) : Str × Str :=
  let i? :=
    match rfindChar path '/' with
    | some j => (findChar (path.drop j) ';').map (· + j)
    | none => findChar path ';'
  match i? with
  | some i => (path.take i, path.drop (i + 1))
  | none => (path, [])

/-- Result of `urlsplit` (fields of CPython `SplitResult` used here). -/
structure SplitResult where
  scheme : Str
  netloc : Str
  path : Str
  query : Str
  fragment : Str
deriving DecidableEq

/-- Models CPython 3.11 `urllib.parse.urlsplit` with default arguments:
leading C0-control/space strip, tab/CR/LF removal, scheme split, netloc
split after `//` with the `ValueError("Invalid IPv6 URL")` raise on
bracket-imbalanced netlocs, then fragment and query splits.  Two checks
that only raise on additional inputs are omitted from the model:
`_check_bracketed_host` (netlocs containing both brackets) and
`_checknetloc` (non-ASCII netlocs under NFKC normalization). -/
def urlsplit (url0 : Str) : Except String SplitResult :=
  let url1 := removeUnsafeBytes (lstripC0 url0)
  let s := splitScheme url1
  let nl :=
    match s.2 with
    | '/' :: '/' :: rest => splitNetloc rest
    | u => ([], u)
  if ('[' ∈ nl.1 ∧ ']' ∉ nl.1) ∨ (']' ∈ nl.1 ∧ '[' ∉ nl.1) then
    Except.error ("Invalid IPv6 URL")
  else
    let f := splitFirst nl.2 '#'
    let q := splitFirst f.1 '?'
    Except.ok ⟨s.1, nl.1, q.1, (q.2.getD []), (f.2.getD [])⟩

/-- Result of `urlparse` (fields of CPython `ParseResult` used here). -/
structure ParseResult where
  scheme : Str
  netloc : Str
  path : Str
  params : Str
  query : Str
  fragment : Str
deriving DecidableEq

/-- CPython `urllib.parse.uses_params` (3.11). -/
def usesParamsSchemes : List Str :=
  [[], str ("ftp"), str ("hdl"), str ("prospero"), str ("http"), str ("imap"),
   str ("https"), str ("shttp"), str ("rtsp"), str ("rtsps"), str ("rtspu"),
   str ("sip"), str ("sips"), str ("mms"), str ("sftp"), str ("tel")]

/-- Models CPython `urllib.parse.urlparse`: `urlsplit` followed by the
params split when the scheme uses params and the path contains `;`. -/
def urlparse (url : Str) : Except String ParseResult :=
  (urlsplit url).map fun s =>
    if s.scheme ∈ usesParamsSchemes ∧ ';' ∈ s.path then
      let p := splitParams s.path
      ⟨s.scheme, s.netloc, p.1, p.2, s.query, s.fragment⟩
    else
      ⟨s.scheme, s.netloc, s.path, [], s.query, s.fragment⟩

/-! ## `tldextract` model -/

/-- Index of the first occurrence of the two-character pattern `a b` in `l`
(Python `s.find` on a two-character needle, used for the `//` search). -/
def findTwo (l : Str) (a b : Char) : Option Nat :=
  match l with
  | [] => none
  | [_] => none
  | x :: y :: t =>
    if x = a ∧ y = b then some 0 else (findTwo (y :: t) a b).map (· + 1)

/-- Models `tldextract.remote._schemeless_url`: drops a leading `//`, or a
leading `scheme://` when everything before the `://` consists of scheme
characters; otherwise returns the url unchanged. -/
def schemelessUrl (u : Str) : Str :=
  match findTwo u '/' '/' with
  | none => u
  | some 0 => u.drop 2
  | some ds =>
    if ds < 2 then u
    else if u.get? (ds - 1) ≠ some ':' then u
    else if ¬ ((u.take (ds - 1)).all isSchemeChar) then u
    else u.drop (ds + 2)

/-- Trailing-root-label strip of `lenient_netloc`: removes trailing ASCII
dots and the three Unicode full-stop variants. -/
def rstripRootLabel (l : Str) : Str :=
  (l.reverse.dropWhile
    (fun c => decide (c = '.' ∨ c = '。' ∨ c = '．' ∨ c = '｡'))).reverse

/-- Hostname branch of `lenient_netloc`: text before the first colon,
stripped of surrounding whitespace and trailing root-label dots.  (Python
`str.strip()` also strips further Unicode whitespace; the model strips the
ASCII whitespace characters.) -/
def hostFromAfterAt (a : Str) : Str :=
  let h1 := a.takeWhile (· != ':')
  let h2 := (h1.dropWhile Char.isWhitespace).reverse.dropWhile Char.isWhitespace
  rstripRootLabel h2.reverse

/-- Models `tldextract.remote.lenient_netloc`: best-effort host extraction
used by `tldextract` (scheme strip, cut at the first of `/?#`, drop
userinfo up to the last `@`, bracketed-IPv6 passthrough, colon cut and
root-label strip). -/
def lenientNetloc (u : Str) : Str :=
  let a1 := ((schemelessUrl u).takeWhile (· != '/')).takeWhile (· != '?')
  let afterUserinfo := a1.takeWhile (· != '#')
  let afterAt := (afterUserinfo.reverse.takeWhile (· != '@')).reverse
  match afterAt with
  | '[' :: _ =>
    (match splitFirst afterAt ']' with
     | (pre, some _) => pre ++ [ ']']
     | (_, none) => hostFromAfterAt afterAt)
  | _ => hostFromAfterAt afterAt

/-- Models Python `s.split(sep)` for a single-character separator: empty
parts are kept, and splitting the empty string gives one empty part. -/
def pySplit : Str → Char → List Str
  | [], _ => [[]]
  | x :: t, c =>
    if x = c then [] :: pySplit t c
    else
      match pySplit t c with
      | h :: r => (x :: h) :: r
      | [] => [[x]]

/-- Numeric value of a digit string (most significant digit first). -/
def natOfDigits (g : Str) : Nat := g.foldl (fun n c => 10 * n + (c.toNat - 48)) 0

/-- Models one octet of `tldextract`'s IPv4 pattern: nonempty, all digits,
no leading zero except the single digit 0, and value at most 255. -/
def isIpv4Octet (g : Str) : Bool :=
  decide (g ≠ []) && g.all Char.isDigit &&
    decide (g = [ '0'] ∨ g.headD ' ' ≠ '0') && decide (natOfDigits g ≤ 255)

/-- Models `tldextract`'s `looks_like_ip`: exactly four dot-separated
IPv4 octets. -/
def looksLikeIpv4 (s : Str) : Bool :=
  let gs := pySplit s '.'
  decide (gs.length = 4) && gs.all isIpv4Octet

/-- Modelled from the spec: a fragment of the public suffix list consulted
by `tldextract` (the library ships the full Mozilla list; the fragment
covers the suffixes exercised here, each entry as its label sequence). -/
def pslFragment : List (List Str) :=
  [[str ("com")], [str ("org")], [str ("net")], [str ("edu")], [str ("io")],
   [str ("uk")], [str ("co"), str ("uk")], [str ("ac"), str ("uk")],
   [str ("gov"), str ("uk")]]

/-- Index in the label list where the matched public suffix starts: the
smallest index whose label tail is a public suffix, and the length of the
list when no suffix matches. -/
def suffixIndexOf (labels : List Str) : Nat :=
  ((List.range labels.length).find?
    (fun i => decide ((labels.drop i) ∈ pslFragment))).getD labels.length

/-- The three components returned by `tldextract.extract`. -/
structure TldParts where
  subdomain : Str
  domain : Str
  suffix : Str
deriving DecidableEq

/-- Python `".".join(parts)`. -/
def joinDots (ls : List Str) : Str := List.intercalate [ '.'] ls

/-- Modelled from the spec: `tldextract.extract` — public-suffix-list-aware
decomposition of the host into subdomain, registrable domain, and public
suffix (the library is an external dependency, absent from the repository).
An IPv4-literal host is returned whole as the domain; otherwise the longest
public-suffix match over the dot-separated (lowercased) labels determines
the suffix, the label before it the domain, and the remaining leading
labels the subdomain. -/
def tldex (u : Str) : TldParts :=
  let netloc := lenientNetloc u
  if looksLikeIpv4 netloc then ⟨[], netloc, []⟩
  else
    let labels := pySplit (netloc.map Char.toLower) '.'
    let i := suffixIndexOf labels
    let sfx := joinDots (labels.drop i)
    let dom := if 1 ≤ i then (labels.get? (i - 1)).getD [] else []
    let sub := if 2 ≤ i then joinDots (labels.take (i - 1)) else []
    ⟨sub, dom, sfx⟩

/-! ## Entropy -/

/-- Distinct characters of `l` not in `seen`, in first-occurrence order. -/
def pyDedupAux : Str → Str → Str
  | _, [] => []
  | seen, c :: t =>
    if c ∈ seen then pyDedupAux seen t else c :: pyDedupAux (c :: seen) t

/-- The distinct characters of `s` in first-occurrence order — the key order
of Python `Counter(s)`.  Only the multiset of per-character counts matters
for the entropy sum. -/
def pyDedup (s : Str) : Str := pyDedupAux [] s

/-- Models `shannon_entropy` of `data_processing.py` with Python floats as
real numbers: `-sum(count/lns * log2(count/lns) for count in
Counter(s).values())`.  For the empty string the generator is empty, so the
sum is 0 and no division is evaluated (CPython returns the integer 0 there). -/
noncomputable def shannon_entropy (s : Str) : ℝ :=
  -(((pyDedup s).map (fun c =>
      ((s.count c : ℝ) / (s.length : ℝ)) *
        Real.logb 2 ((s.count c : ℝ) / (s.length : ℝ)))).sum)

/-! ## Feature extraction -/

/-- A Python numeric value in the feature mapping: the features are ints
except the entropy, which is a float (modelled as a real number). -/
inductive PyNum where
  | int (z : ℤ)
  | float (r : ℝ)

/-- Python `int(bool(p))`. -/
def boolInt (p : Prop) [Decidable p] : ℤ := if p then 1 else 0

/-- Models Python substring membership `p in l`. -/
def containsSubstr : Str → Str → Bool
  | [], p => p.isEmpty
  | l@(_ :: t), p => p.isPrefixOf l || containsSubstr t p

/-- If `p` is a leading segment of `l`, the remainder of `l` after it. -/
def dropPre : Str → Str → Option Str
  | [], l => some l
  | _ :: _, [] => none
  | p :: ps, c :: cs => if p = c then dropPre ps cs else none

/-- Length of the leading run of digits. -/
def leadDigits (l : Str) : Nat := (l.takeWhile Char.isDigit).length

/-- One step of the regex tail `(?:\d{1,3}\.)`: consumes one to three
digits followed by a literal dot. -/
def ipGroupStep (l : Str) : Option Str :=
  let d := leadDigits l
  if 1 ≤ d ∧ d ≤ 3 then
    match l.drop d with
    | '.' :: rest => some rest
    | _ => none
  else none

/-- The regex tail `(?:\d{1,3}\.){3}\d{1,3}` matches at the head of `l`. -/
def ipQuad (l : Str) : Bool :=
  match ipGroupStep l with
  | none => false
  | some l1 =>
    match ipGroupStep l1 with
    | none => false
    | some l2 =>
      match ipGroupStep l2 with
      | none => false
      | some l3 => decide (1 ≤ leadDigits l3)

/-- The regex `http[s]?://(?:\d{1,3}\.){3}\d{1,3}` matches at the
head of `l`.  The optional `s` is consumed when present; when it is, the
`://` cannot match without it, so no backtracking is lost. -/
def schemeIpAt (l : Str) : Bool :=
  match dropPre (str ("http")) l with
  | none => false
  | some r =>
    match dropPre [ 's'] r with
    | some r2 =>
      (match dropPre (str ("://")) r2 with
       | some r3 => ipQuad r3
       | none => false)
    | none =>
      (match dropPre (str ("://")) r with
       | some r3 => ipQuad r3
       | none => false)

/-- Models `re.search` of the `uses_ip` pattern
(`data_processing.py` line 88): the pattern is tried at every start
position of the full URL string. -/
def usesIpSearch : Str → Bool
  | [] => false
  | l@(_ :: t) => schemeIpAt l || usesIpSearch t

/-- The eight fixed suspicious keywords (`data_processing.py` lines 95-104). -/
def suspiciousKeywords : List Str :=
  [str ("login"), str ("secure"), str ("account"), str ("update"),
   str ("free"), str ("lucky"), str ("banking"), str ("confirm")]

/-- The feature dictionary built by `extract_url_features`
(`data_processing.py` lines 64-109) given the `urlparse` result, one entry
per insertion in insertion order; the keyword loop is unrolled over the
fixed keyword list.  `pd.Series(features)` preserves the dict order, so the
mapping is modelled as the ordered association list itself. -/
noncomputable def featureList (url : Str) (parsed : ParseResult) : List (Str × PyNum) :=
  let hostname := parsed.netloc
  let path := parsed.path
  let query := parsed.query
  let ext := tldex url
  let lurl := url.map Char.toLower
  [(str ("url_length"), PyNum.int (url.length : ℕ)),
   (str ("hostname_length"), PyNum.int (hostname.length : ℕ)),
   (str ("path_length"), PyNum.int (path.length : ℕ)),
   (str ("query_length"), PyNum.int (query.length : ℕ)),
   (str ("num_dots"), PyNum.int (url.count '.' : ℕ)),
   (str ("num_hyphens"), PyNum.int (url.count '-' : ℕ)),
   (str ("num_at"), PyNum.int (url.count '@' : ℕ)),
   (str ("num_question_marks"), PyNum.int (url.count '?' : ℕ)),
   (str ("num_equals"), PyNum.int (url.count '=' : ℕ)),
   (str ("num_underscores"), PyNum.int (url.count '_' : ℕ)),
   (str ("num_ampersands"), PyNum.int (url.count '&' : ℕ)),
   (str ("num_digits"), PyNum.int (url.countP Char.isDigit : ℕ)),
   (str ("has_https"), PyNum.int (boolInt ((str ("https")).isPrefixOf lurl))),
   (str ("uses_ip"), PyNum.int (boolInt (usesIpSearch url))),
   (str ("num_subdomains"),
     PyNum.int ((if ext.subdomain ≠ [] then (pySplit ext.subdomain '.').length else 0 : ℕ))),
   (str ("has_login"), PyNum.int (boolInt (containsSubstr lurl (str ("login"))))),
   (str ("has_secure"), PyNum.int (boolInt (containsSubstr lurl (str ("secure"))))),
   (str ("has_account"), PyNum.int (boolInt (containsSubstr lurl (str ("account"))))),
   (str ("has_update"), PyNum.int (boolInt (containsSubstr lurl (str ("update"))))),
   (str ("has_free"), PyNum.int (boolInt (containsSubstr lurl (str ("free"))))),
   (str ("has_lucky"), PyNum.int (boolInt (containsSubstr lurl (str ("lucky"))))),
   (str ("has_banking"), PyNum.int (boolInt (containsSubstr lurl (str ("banking"))))),
   (str ("has_confirm"), PyNum.int (boolInt (containsSubstr lurl (str ("confirm"))))),
   (str ("has_port"), PyNum.int (boolInt (':' ∈ hostname))),
   (str ("url_entropy"), PyNum.float (shannon_entropy url))]

/-- Models `extract_url_features` (`data_processing.py` lines 32-111):
`urlparse` runs first and its exception, when raised, propagates; otherwise
the feature dict is built from the parse result and the raw URL string. -/
noncomputable def extract_url_features (url : Str) : Except String (List (Str × PyNum)) :=
  (urlparse url).map (featureList url)

/-- Lookup by feature name in the feature mapping (dict / Series label
access). -/
def flookup : List (Str × PyNum) → Str → Option PyNum
  | [], _ => none
  | (k, v) :: t, k2 => if k = k2 then some v else flookup t k2

/-! ## Prediction service: canonical columns, assembly, labels -/

/-- `TRAIN_COLUMNS` (`predict_service.py` lines 28-54), in the exact order
the model was trained on. -/
def TRAIN_COLUMNS : List Str :=
  [str ("url_length"), str ("hostname_length"), str ("path_length"),
   str ("query_length"), str ("num_dots"), str ("num_hyphens"),
   str ("num_at"), str ("num_question_marks"), str ("num_equals"),
   str ("num_underscores"), str ("num_ampersands"), str ("num_digits"),
   str ("has_https"), str ("uses_ip"), str ("num_subdomains"),
   str ("has_login"), str ("has_secure"), str ("has_account"),
   str ("has_update"), str ("has_free"), str ("has_lucky"),
   str ("has_banking"), str ("has_confirm"), str ("has_port"),
   str ("url_entropy")]

/-- Models the reindex `features[TRAIN_COLUMNS]` (`predict_service.py`
line 175): every canonical column is looked up by name and the values are
returned in column order; a missing label is the `MissingFeatureError`
(pandas raises a `KeyError` there, never filling defaults). -/
def assemble (m : List (Str × PyNum)) : List Str → Except String (List PyNum)
  | [] => Except.ok []
  | c :: t =>
    match flookup m c with
    | none => Except.error ("MissingFeatureError")
    | some v =>
      match assemble m t with
      | Except.ok vs => Except.ok (v :: vs)
      | Except.error e => Except.error e

/-- `LABEL_MAPPING` (`predict_service.py` lines 57-62). -/
def LABEL_MAPPING : List (Nat × String) :=
  [(0, "benign"), (1, "phishing"), (2, "malware"), (3, "defacement")]

/-- Models `LABEL_MAPPING.get(pred_class, "unknown")`
(`predict_service.py` line 182). -/
def labelOf (i : Nat) : String :=
  (LABEL_MAPPING.lookup i).getD ("unknown")

/-! ## Claim-side (spec-worded) definitions -/

/-- Claim side of C4: a 1-to-3-digit group. -/
def IpGroupStr (g : Str) : Prop :=
  g ≠ [] ∧ g.length ≤ 3 ∧ ∀ c ∈ g, c.isDigit = true

/-- Claim side of C4: the URL matches `http` or `https`, then `://`, then
four dot-separated 1-to-3-digit groups at the start of the authority,
somewhere in the string. -/
def SpecIpPattern (u : Str) : Prop :=
  ∃ pre s g1 g2 g3 g4 suf,
    (s = [] ∨ s = str ("s")) ∧
    IpGroupStr g1 ∧ IpGroupStr g2 ∧ IpGroupStr g3 ∧ IpGroupStr g4 ∧
    u = pre ++ str ("http") ++ s ++ str ("://") ++
        g1 ++ [ '.'] ++ g2 ++ [ '.'] ++ g3 ++ [ '.'] ++ g4 ++ suf

/-- The C4 pattern anchored at the head of the string: `http`, an optional
`s`, `://`, then the four digit groups, followed by anything. -/
def SpecIpAt (l : Str) : Prop :=
  ∃ s g1 g2 g3 g4 suf,
    (s = [] ∨ s = str ("s")) ∧
    IpGroupStr g1 ∧ IpGroupStr g2 ∧ IpGroupStr g3 ∧ IpGroupStr g4 ∧
    l = str ("http") ++ s ++ str ("://") ++
        g1 ++ [ '.'] ++ g2 ++ [ '.'] ++ g3 ++ [ '.'] ++ g4 ++ suf

/-- Claim side of C5: the number of dot-separated labels of a component,
0 for the empty component. -/
def dotLabelCount (s : Str) : Nat :=
  if s = [] then 0 else (pySplit s '.').length

/-- Claim side of C10: the eleven flag features. -/
def flagKeys : List Str :=
  [str ("has_https"), str ("uses_ip"), str ("has_port"),
   str ("has_login"), str ("has_secure"), str ("has_account"),
   str ("has_update"), str ("has_free"), str ("has_lucky"),
   str ("has_banking"), str ("has_confirm")]

/-- Claim side of C10: the length, character-count, digit-count and
subdomain-count features. -/
def countKeys : List Str :=
  [str ("url_length"), str ("hostname_length"), str ("path_length"),
   str ("query_length"), str ("num_dots"), str ("num_hyphens"),
   str ("num_at"), str ("num_question_marks"), str ("num_equals"),
   str ("num_underscores"), str ("num_ampersands"), str ("num_digits"),
   str ("num_subdomains")]

/-! ## Lemmas about the entropy model -/

theorem mem_pyDedupAux {a : Char} :
    ∀ (seen l : Str), a ∈ pyDedupAux seen l ↔ a ∈ l ∧ a ∉ seen := by
  intro seen l
  induction l generalizing seen with
  | nil => simp [pyDedupAux]
  | cons c t ih =>
    by_cases hc : c ∈ seen
    · rw [pyDedupAux, if_pos hc, ih]
      constructor
      · rintro ⟨h1, h2⟩
        exact ⟨List.mem_cons_of_mem _ h1, h2⟩
      · rintro ⟨h1, h2⟩
        rcases List.mem_cons.mp h1 with rfl | h1
        · exact absurd hc h2
        · exact ⟨h1, h2⟩
    · rw [pyDedupAux, if_neg hc]
      by_cases hac : a = c
      · subst hac
        simp [hc]
      · simp only [List.mem_cons, hac, false_or, ih]

theorem nodup_pyDedupAux : ∀ (seen l : Str), (pyDedupAux seen l).Nodup := by
  intro seen l
  induction l generalizing seen with
  | nil => simp [pyDedupAux]
  | cons c t ih =>
    by_cases hc : c ∈ seen
    · rw [pyDedupAux, if_pos hc]
      exact ih seen
    · rw [pyDedupAux, if_neg hc]
      refine List.Nodup.cons (fun hmem => ?_) (ih (c :: seen))
      exact ((mem_pyDedupAux _ _).mp hmem).2 (List.mem_cons_self _ _)

theorem mem_pyDedup {a : Char} {s : Str} : a ∈ pyDedup s ↔ a ∈ s := by
  rw [pyDedup, mem_pyDedupAux]
  simp

theorem nodup_pyDedup (s : Str) : (pyDedup s).Nodup := nodup_pyDedupAux [] s

theorem toFinset_pyDedup (s : Str) : (pyDedup s).toFinset = s.toFinset := by
  ext a
  simp [mem_pyDedup]

theorem list_sum_nonpos {l : List ℝ} (h : ∀ x ∈ l, x ≤ 0) : l.sum ≤ 0 := by
  induction l with
  | nil => simp
  | cons a t ih =>
    rw [List.sum_cons]
    have h1 := h a (List.mem_cons_self _ _)
    have h2 := ih (fun x hx => h x (List.mem_cons_of_mem _ hx))
    linarith

theorem entropy_term_nonpos {s : Str} {c : Char} (hc : c ∈ s) :
    ((s.count c : ℝ) / (s.length : ℝ)) *
      Real.logb 2 ((s.count c : ℝ) / (s.length : ℝ)) ≤ 0 := by
  have hcount : 0 < s.count c := List.count_pos_iff.mpr hc
  have hlen : 0 < s.length := List.length_pos.mpr (List.ne_nil_of_mem hc)
  have hlenR : (0 : ℝ) < (s.length : ℝ) := by exact_mod_cast hlen
  have hx0 : (0 : ℝ) < (s.count c : ℝ) / (s.length : ℝ) := by
    apply div_pos _ hlenR
    exact_mod_cast hcount
  have hx1 : (s.count c : ℝ) / (s.length : ℝ) ≤ 1 := by
    rw [div_le_one hlenR]
    exact_mod_cast List.count_le_length c s
  exact mul_nonpos_of_nonneg_of_nonpos hx0.le
    (Real.logb_nonpos (by norm_num) hx0.le hx1)

theorem shannon_entropy_nonneg (s : Str) : 0 ≤ shannon_entropy s := by
  unfold shannon_entropy
  rw [neg_nonneg]
  apply list_sum_nonpos
  intro x hx
  obtain ⟨c, hcmem, rfl⟩ := List.mem_map.mp hx
  exact entropy_term_nonpos (mem_pyDedup.mp hcmem)

theorem shannon_entropy_eq_finset_sum (s : Str) :
    shannon_entropy s =
      ∑ c ∈ s.toFinset,
        -(((s.count c : ℝ) / (s.length : ℝ)) *
          Real.logb 2 ((s.count c : ℝ) / (s.length : ℝ))) := by
  unfold shannon_entropy
  rw [← toFinset_pyDedup s, Finset.sum_neg_distrib,
    List.sum_toFinset _ (nodup_pyDedup s)]

theorem shannon_entropy_empty : shannon_entropy (str ("")) = 0 := by
  have hd : pyDedup (str ("")) = [] := rfl
  unfold shannon_entropy
  rw [hd]
  simp

theorem shannon_entropy_aaaa : shannon_entropy (str ("aaaa")) = 0 := by
  have hd : pyDedup (str ("aaaa")) = [ 'a'] := rfl
  have hc : (str ("aaaa")).count 'a' = 4 := rfl
  have hl : (str ("aaaa")).length = 4 := rfl
  unfold shannon_entropy
  rw [hd]
  simp only [List.map_cons, List.map_nil, List.sum_cons, List.sum_nil, hc, hl]
  norm_num

theorem shannon_entropy_ab : shannon_entropy (str ("ab")) = 1 := by
  have hd : pyDedup (str ("ab")) = [ 'a', 'b'] := rfl
  have hca : (str ("ab")).count 'a' = 1 := rfl
  have hcb : (str ("ab")).count 'b' = 1 := rfl
  have hl : (str ("ab")).length = 2 := rfl
  unfold shannon_entropy
  rw [hd]
  simp only [List.map_cons, List.map_nil, List.sum_cons, List.sum_nil, hca, hcb, hl]
  have hlog : Real.logb 2 ((1 : ℝ) / 2) = -1 := by
    rw [one_div, Real.logb_inv, Real.logb_self_eq_one (by norm_num)]
  push_cast
  rw [hlog]
  ring

/-- C3: for every non-empty string s, shannon_entropy s equals the Shannon
entropy in bits — the sum over each distinct character with count c out of
total length n of -(c/n) * log2(c/n) — and the result is non-negative; in
particular the entropy of "aaaa" is 0 and the entropy of "ab" is
positive. -/
theorem C3_shannon_entropy_contract (s : Str) (h : s ≠ []) :
    shannon_entropy s =
      ∑ c ∈ s.toFinset,
        -(((s.count c : ℝ) / (s.length : ℝ)) *
          Real.logb 2 ((s.count c : ℝ) / (s.length : ℝ))) ∧
    0 ≤ shannon_entropy s ∧
    shannon_entropy (str ("aaaa")) = 0 ∧
    0 < shannon_entropy (str ("ab")) :=
  ⟨shannon_entropy_eq_finset_sum s, shannon_entropy_nonneg s,
   shannon_entropy_aaaa, by rw [shannon_entropy_ab]; norm_num⟩

/-- Witness for C3 at the concrete non-empty string "ab". -/
theorem C3_shannon_entropy_contract_witness :
    shannon_entropy (str ("ab")) =
      ∑ c ∈ (str ("ab")).toFinset,
        -((((str ("ab")).count c : ℝ) / ((str ("ab")).length : ℝ)) *
          Real.logb 2 (((str ("ab")).count c : ℝ) / ((str ("ab")).length : ℝ))) ∧
    0 ≤ shannon_entropy (str ("ab")) ∧
    shannon_entropy (str ("aaaa")) = 0 ∧
    0 < shannon_entropy (str ("ab")) :=
  C3_shannon_entropy_contract (str ("ab")) (by decide)

/-! ## Lemmas about extraction -/

theorem extract_ok_iff {u : Str} {m : List (Str × PyNum)} :
    extract_url_features u = Except.ok m ↔
      ∃ p, urlparse u = Except.ok p ∧ m = featureList u p := by
  unfold extract_url_features
  cases h : urlparse u with
  | error e => simp [Except.map]
  | ok p => simp [Except.map, eq_comm]

/-- C1: the claim asks that extraction never throw for any input string,
with parse failures degrading into empty components; but the underlying
`urlparse` raises `ValueError("Invalid IPv6 URL")` on a netloc containing
`[` without `]`, and `extract_url_features` propagates it: evaluation of
the model at the input "http://[". -/
theorem C1_extraction_raises_on_unbalanced_bracket :
    extract_url_features (str ("http://[")) =
      Except.error ("Invalid IPv6 URL") := rfl

/-- C6: each character-count feature equals the raw case-sensitive count of
the corresponding literal character anywhere in the full URL string, and
num_digits the count of decimal-digit characters anywhere in it. -/
theorem C6_char_count_features (u : Str) (m : List (Str × PyNum))
    (h : extract_url_features u = Except.ok m) :
    flookup m (str ("num_dots")) = some (PyNum.int (u.count '.' : ℕ)) ∧
    flookup m (str ("num_hyphens")) = some (PyNum.int (u.count '-' : ℕ)) ∧
    flookup m (str ("num_at")) = some (PyNum.int (u.count '@' : ℕ)) ∧
    flookup m (str ("num_question_marks")) = some (PyNum.int (u.count '?' : ℕ)) ∧
    flookup m (str ("num_equals")) = some (PyNum.int (u.count '=' : ℕ)) ∧
    flookup m (str ("num_underscores")) = some (PyNum.int (u.count '_' : ℕ)) ∧
    flookup m (str ("num_ampersands")) = some (PyNum.int (u.count '&' : ℕ)) ∧
    flookup m (str ("num_digits")) = some (PyNum.int (u.countP Char.isDigit : ℕ)) := by
  obtain ⟨p, hp, rfl⟩ := extract_ok_iff.mp h
  exact ⟨rfl, rfl, rfl, rfl, rfl, rfl, rfl, rfl⟩

/-- Witness for C6 at the concrete URL "http://a-b.c?x=1&y=2". -/
theorem C6_char_count_features_witness :
    ∃ m, extract_url_features (str ("http://a-b.c?x=1&y=2")) = Except.ok m ∧
      (flookup m (str ("num_dots")) =
          some (PyNum.int ((str ("http://a-b.c?x=1&y=2")).count '.' : ℕ)) ∧
       flookup m (str ("num_hyphens")) =
          some (PyNum.int ((str ("http://a-b.c?x=1&y=2")).count '-' : ℕ)) ∧
       flookup m (str ("num_at")) =
          some (PyNum.int ((str ("http://a-b.c?x=1&y=2")).count '@' : ℕ)) ∧
       flookup m (str ("num_question_marks")) =
          some (PyNum.int ((str ("http://a-b.c?x=1&y=2")).count '?' : ℕ)) ∧
       flookup m (str ("num_equals")) =
          some (PyNum.int ((str ("http://a-b.c?x=1&y=2")).count '=' : ℕ)) ∧
       flookup m (str ("num_underscores")) =
          some (PyNum.int ((str ("http://a-b.c?x=1&y=2")).count '_' : ℕ)) ∧
       flookup m (str ("num_ampersands")) =
          some (PyNum.int ((str ("http://a-b.c?x=1&y=2")).count '&' : ℕ)) ∧
       flookup m (str ("num_digits")) =
          some (PyNum.int ((str ("http://a-b.c?x=1&y=2")).countP Char.isDigit : ℕ))) :=
  ⟨_, rfl, C6_char_count_features (str ("http://a-b.c?x=1&y=2")) _ rfl⟩

theorem isPrefixOf_eq_true_iff {p l : Str} : p.isPrefixOf l = true ↔ p <+: l := by
  induction p generalizing l with
  | nil => simp [List.isPrefixOf]
  | cons a ps ih =>
    cases l with
    | nil => simp [List.isPrefixOf]
    | cons b t => simp [List.isPrefixOf, List.cons_prefix_cons, ih]

/-- C7: has_https is 1 exactly when the lowercase form of the URL starts
with the literal prefix "https" — even without "://", as on the input
"httpsfoo" — and 0 otherwise. -/
theorem C7_has_https_flag (u : Str) (m : List (Str × PyNum))
    (h : extract_url_features u = Except.ok m) :
    (flookup m (str ("has_https")) = some (PyNum.int 1) ↔
      str ("https") <+: u.map Char.toLower) ∧
    (flookup m (str ("has_https")) = some (PyNum.int 0) ↔
      ¬ str ("https") <+: u.map Char.toLower) ∧
    (extract_url_features (str ("httpsfoo"))).map
        (fun m2 => flookup m2 (str ("has_https"))) =
      Except.ok (some (PyNum.int 1)) := by
  obtain ⟨p, hp, rfl⟩ := extract_ok_iff.mp h
  have hv : flookup (featureList u p) (str ("has_https")) =
      some (PyNum.int (boolInt
        ((str ("https")).isPrefixOf (u.map Char.toLower)))) := rfl
  rw [hv]
  by_cases hb : (str ("https")).isPrefixOf (u.map Char.toLower) = true
  · have hpre := isPrefixOf_eq_true_iff.mp hb
    refine ⟨?_, ?_, rfl⟩ <;> simp [boolInt, hb, hpre]
  · have hpre := (not_iff_not.mpr isPrefixOf_eq_true_iff).mp hb
    refine ⟨?_, ?_, rfl⟩ <;> simp [boolInt, hb, hpre]

/-- Witness for C7 at the concrete URL "httpsfoo". -/
theorem C7_has_https_flag_witness :
    ∃ m, extract_url_features (str ("httpsfoo")) = Except.ok m ∧
      (flookup m (str ("has_https")) = some (PyNum.int 1) ↔
        str ("https") <+: (str ("httpsfoo")).map Char.toLower) :=
  ⟨_, rfl, (C7_has_https_flag (str ("httpsfoo")) _ rfl).1⟩

/-- C5: num_subdomains is the number of dot-separated labels in the
subdomain component of the public-suffix-aware decomposition of the host
(0 when there is no subdomain); on "http://a.b.example.co.uk" it is 2,
the public suffix co.uk contributing no subdomain labels. -/
theorem C5_num_subdomains (u : Str) (m : List (Str × PyNum))
    (h : extract_url_features u = Except.ok m) :
    flookup m (str ("num_subdomains")) =
      some (PyNum.int (dotLabelCount (tldex u).subdomain : ℕ)) ∧
    (extract_url_features (str ("http://a.b.example.co.uk"))).map
        (fun m2 => flookup m2 (str ("num_subdomains"))) =
      Except.ok (some (PyNum.int 2)) := by
  obtain ⟨p, hp, rfl⟩ := extract_ok_iff.mp h
  constructor
  · have hv : flookup (featureList u p) (str ("num_subdomains")) =
        some (PyNum.int
          ((if (tldex u).subdomain ≠ [] then
              (pySplit (tldex u).subdomain '.').length else 0 : ℕ))) := rfl
    rw [hv, dotLabelCount]
    by_cases hs : (tldex u).subdomain = [] <;> simp [hs]
  · rfl

/-- Witness for C5 at the concrete URL "http://a.b.example.co.uk". -/
theorem C5_num_subdomains_witness :
    ∃ m, extract_url_features (str ("http://a.b.example.co.uk")) = Except.ok m ∧
      flookup m (str ("num_subdomains")) =
        some (PyNum.int
          (dotLabelCount (tldex (str ("http://a.b.example.co.uk"))).subdomain : ℕ)) :=
  ⟨_, rfl, (C5_num_subdomains (str ("http://a.b.example.co.uk")) _ rfl).1⟩

/-- C8: the class-label table sends 0 to "benign", 1 to "phishing", 2 to
"malware", 3 to "defacement", and every other index to "unknown". -/
theorem C8_label_table :
    labelOf 0 = "benign" ∧ labelOf 1 = "phishing" ∧ labelOf 2 = "malware" ∧
    labelOf 3 = "defacement" ∧ ∀ n : Nat, 3 < n → labelOf n = "unknown" := by
  refine ⟨rfl, rfl, rfl, rfl, ?_⟩
  intro n hn
  obtain ⟨k, rfl⟩ : ∃ k, n = k + 4 := ⟨n - 4, by omega⟩
  rfl

/-- Witness for C8 at the concrete out-of-table index 99. -/
theorem C8_label_table_witness : labelOf 99 = "unknown" :=
  C8_label_table.2.2.2.2 99 (by norm_num)

/-- C9: extraction of the empty string succeeds, every length and
character-count feature is 0, every flag feature is 0, and the entropy
feature is 0 (the empty generator sums to 0 in the source). -/
theorem C9_empty_string_features :
    ∃ m, extract_url_features (str ("")) = Except.ok m ∧
      flookup m (str ("url_length")) = some (PyNum.int 0) ∧
      flookup m (str ("hostname_length")) = some (PyNum.int 0) ∧
      flookup m (str ("path_length")) = some (PyNum.int 0) ∧
      flookup m (str ("query_length")) = some (PyNum.int 0) ∧
      flookup m (str ("num_dots")) = some (PyNum.int 0) ∧
      flookup m (str ("num_hyphens")) = some (PyNum.int 0) ∧
      flookup m (str ("num_at")) = some (PyNum.int 0) ∧
      flookup m (str ("num_question_marks")) = some (PyNum.int 0) ∧
      flookup m (str ("num_equals")) = some (PyNum.int 0) ∧
      flookup m (str ("num_underscores")) = some (PyNum.int 0) ∧
      flookup m (str ("num_ampersands")) = some (PyNum.int 0) ∧
      flookup m (str ("num_digits")) = some (PyNum.int 0) ∧
      flookup m (str ("has_https")) = some (PyNum.int 0) ∧
      flookup m (str ("uses_ip")) = some (PyNum.int 0) ∧
      flookup m (str ("num_subdomains")) = some (PyNum.int 0) ∧
      flookup m (str ("has_login")) = some (PyNum.int 0) ∧
      flookup m (str ("has_secure")) = some (PyNum.int 0) ∧
      flookup m (str ("has_account")) = some (PyNum.int 0) ∧
      flookup m (str ("has_update")) = some (PyNum.int 0) ∧
      flookup m (str ("has_free")) = some (PyNum.int 0) ∧
      flookup m (str ("has_lucky")) = some (PyNum.int 0) ∧
      flookup m (str ("has_banking")) = some (PyNum.int 0) ∧
      flookup m (str ("has_confirm")) = some (PyNum.int 0) ∧
      flookup m (str ("has_port")) = some (PyNum.int 0) ∧
      flookup m (str ("url_entropy")) = some (PyNum.float 0) := by
  refine ⟨_, rfl, rfl, rfl, rfl, rfl, rfl, rfl, rfl, rfl, rfl, rfl, rfl, rfl,
    rfl, rfl, rfl, rfl, rfl, rfl, rfl, rfl, rfl, rfl, rfl, rfl, ?_⟩
  rw [← shannon_entropy_empty]
  rfl

theorem boolInt01 (p : Prop) [Decidable p] : boolInt p = 0 ∨ boolInt p = 1 := by
  unfold boolInt
  split <;> simp

/-- C10: every flag feature of a successful extraction is exactly 0 or 1,
and every length, character-count, digit-count and subdomain-count feature
is (the integer image of) a natural number. -/
theorem C10_value_ranges (u : Str) (m : List (Str × PyNum))
    (h : extract_url_features u = Except.ok m) :
    (∀ k ∈ flagKeys, ∃ z : ℤ,
      flookup m k = some (PyNum.int z) ∧ (z = 0 ∨ z = 1)) ∧
    (∀ k ∈ countKeys, ∃ n : ℕ, flookup m k = some (PyNum.int (n : ℤ))) := by
  obtain ⟨p, hp, rfl⟩ := extract_ok_iff.mp h
  constructor
  · intro k hk
    fin_cases hk <;> exact ⟨_, rfl, boolInt01 _⟩
  · intro k hk
    fin_cases hk <;> exact ⟨_, rfl⟩

/-- Witness for C10 at the concrete URL "http://x.com/a?b=1". -/
theorem C10_value_ranges_witness :
    ∃ m, extract_url_features (str ("http://x.com/a?b=1")) = Except.ok m ∧
      ((∀ k ∈ flagKeys, ∃ z : ℤ,
          flookup m k = some (PyNum.int z) ∧ (z = 0 ∨ z = 1)) ∧
       (∀ k ∈ countKeys, ∃ n : ℕ, flookup m k = some (PyNum.int (n : ℤ)))) :=
  ⟨_, rfl, C10_value_ranges (str ("http://x.com/a?b=1")) _ rfl⟩

theorem assemble_ok_get :
    ∀ (cols : List Str) (m : List (Str × PyNum)) (v : List PyNum),
      assemble m cols = Except.ok v →
      ∀ i c, cols.get? i = some c → v.get? i = flookup m c := by
  intro cols
  induction cols with
  | nil =>
    intro m v hv i c hc
    simp at hc
  | cons c0 t ih =>
    intro m v hv i c hc
    rw [assemble] at hv
    cases hf : flookup m c0 with
    | none => rw [hf] at hv; exact absurd hv (by simp)
    | some w =>
      rw [hf] at hv
      cases ht : assemble m t with
      | error e => rw [ht] at hv; exact absurd hv (by simp)
      | ok vs =>
        rw [ht] at hv
        simp only [Except.ok.injEq] at hv
        subst hv
        cases i with
        | zero =>
          simp only [List.get?] at hc
          obtain rfl : c0 = c := by simpa using hc
          simpa using hf.symm
        | succ j =>
          simp only [List.get?] at hc ⊢
          exact ih m vs ht j c hc

theorem assemble_missing :
    ∀ (cols : List Str) (m : List (Str × PyNum)),
      (∃ c ∈ cols, flookup m c = none) →
      assemble m cols = Except.error ("MissingFeatureError") := by
  intro cols
  induction cols with
  | nil =>
    rintro m ⟨c, hc, hnone⟩
    simp at hc
  | cons c0 t ih =>
    rintro m ⟨c, hc, hnone⟩
    rw [assemble]
    rcases List.mem_cons.mp hc with rfl | hct
    · rw [hnone]
    · cases hf : flookup m c0 with
      | none => rfl
      | some w => rw [ih m ⟨c, hct, hnone⟩]

/-- C2: for every URL whose extraction succeeds, assembling the feature
mapping against the canonical 25-name column list succeeds with an ordered
vector of length 25 whose i-th element is the mapping's value at the i-th
canonical column; and on any mapping that lacks a requested column,
assembly fails with the MissingFeatureError instead of filling defaults. -/
theorem C2_assemble_canonical (u : Str) (m : List (Str × PyNum))
    (h : extract_url_features u = Except.ok m) :
    (∃ v, assemble m TRAIN_COLUMNS = Except.ok v ∧ v.length = 25 ∧
      ∀ i c, TRAIN_COLUMNS.get? i = some c → v.get? i = flookup m c) ∧
    (∀ m2 cols, (∃ c ∈ cols, flookup m2 c = none) →
      assemble m2 cols = Except.error ("MissingFeatureError")) := by
  obtain ⟨p, hp, rfl⟩ := extract_ok_iff.mp h
  refine ⟨⟨_, rfl, rfl, assemble_ok_get _ _ _ rfl⟩,
    fun m2 cols hc => assemble_missing _ _ hc⟩

/-- Witness for C2 at the concrete URL "http://example.com". -/
theorem C2_assemble_canonical_witness :
    ∃ m, extract_url_features (str ("http://example.com")) = Except.ok m ∧
      ((∃ v, assemble m TRAIN_COLUMNS = Except.ok v ∧ v.length = 25 ∧
          ∀ i c, TRAIN_COLUMNS.get? i = some c → v.get? i = flookup m c) ∧
       (∀ m2 cols, (∃ c ∈ cols, flookup m2 c = none) →
          assemble m2 cols = Except.error ("MissingFeatureError"))) :=
  ⟨_, rfl, C2_assemble_canonical (str ("http://example.com")) _ rfl⟩

/-! ## Lemmas about the uses_ip regex model -/

theorem dropPre_eq_some {p : Str} :
    ∀ {l r : Str}, dropPre p l = some r ↔ l = p ++ r := by
  induction p with
  | nil => intro l r; simp [dropPre]
  | cons a ps ih =>
    intro l r
    cases l with
    | nil => simp [dropPre]
    | cons b t =>
      by_cases hab : a = b
      · subst hab
        rw [dropPre, if_pos rfl]
        simp [ih]
      · rw [dropPre, if_neg hab]
        simp [Ne.symm hab]

theorem takeWhile_digits_append {g : Str} (hg : ∀ c ∈ g, c.isDigit = true)
    {x : Char} (hx : x.isDigit = false) (r : Str) :
    (g ++ x :: r).takeWhile Char.isDigit = g := by
  induction g with
  | nil => simp [List.takeWhile_cons, hx]
  | cons a t ih =>
    have ha := hg a (List.mem_cons_self _ _)
    rw [List.cons_append, List.takeWhile_cons, if_pos ha,
      ih (fun c hc => hg c (List.mem_cons_of_mem _ hc))]

theorem drop_takeWhile_length (p : Char → Bool) (l : Str) :
    l.drop (l.takeWhile p).length = l.dropWhile p := by
  induction l with
  | nil => rfl
  | cons a t ih =>
    by_cases h : p a = true
    · rw [List.takeWhile_cons, if_pos h, List.dropWhile_cons, if_pos h,
        List.length_cons, List.drop_succ_cons, ih]
    · rw [List.takeWhile_cons, if_neg h, List.dropWhile_cons, if_neg h,
        List.length_nil, List.drop_zero]

theorem ipGroupStep_eq_some {l r : Str} :
    ipGroupStep l = some r ↔ ∃ g, IpGroupStr g ∧ l = g ++ '.' :: r := by
  constructor
  · intro h
    rw [ipGroupStep] at h
    by_cases hd : 1 ≤ leadDigits l ∧ leadDigits l ≤ 3
    · rw [if_pos hd] at h
      have hdrop : l.drop (leadDigits l) = l.dropWhile Char.isDigit :=
        drop_takeWhile_length Char.isDigit l
      rw [hdrop] at h
      have hsplit := List.takeWhile_append_dropWhile Char.isDigit l
      split at h
      · rename_i rest heq
        obtain rfl : rest = r := by simpa using h
        refine ⟨l.takeWhile Char.isDigit, ⟨?_, hd.2, ?_⟩, ?_⟩
        · intro hnil
          have : leadDigits l = 0 := by rw [leadDigits, hnil]; rfl
          omega
        · exact fun c hc => List.mem_takeWhile_imp hc
        · nth_rewrite 1 [← hsplit]
          rw [heq]
      · exact absurd h (by simp)
    · rw [if_neg hd] at h
      exact absurd h (by simp)
  · rintro ⟨g, ⟨hne, hlen, hdig⟩, rfl⟩
    have hx : ('.' : Char).isDigit = false := by decide
    have htake : ((g ++ '.' :: r).takeWhile Char.isDigit) = g :=
      takeWhile_digits_append hdig hx r
    have hlead : leadDigits (g ++ '.' :: r) = g.length := by
      rw [leadDigits, htake]
    have h1 : 1 ≤ leadDigits (g ++ '.' :: r) := by
      rw [hlead]
      exact List.length_pos.mpr hne
    rw [ipGroupStep, if_pos ⟨h1, by rw [hlead]; exact hlen⟩, hlead,
      List.drop_left]
    rfl

theorem one_le_leadDigits {l : Str} :
    1 ≤ leadDigits l ↔ ∃ g suf, IpGroupStr g ∧ l = g ++ suf := by
  constructor
  · intro h
    cases l with
    | nil => simp [leadDigits] at h
    | cons c t =>
      by_cases hc : c.isDigit = true
      · refine ⟨[c], t, ⟨by simp, by simp, ?_⟩, rfl⟩
        intro x hx
        obtain rfl : x = c := by simpa using hx
        exact hc
      · rw [leadDigits, List.takeWhile_cons, if_neg hc] at h
        simp at h
  · rintro ⟨g, suf, ⟨hne, hlen, hdig⟩, rfl⟩
    cases g with
    | nil => exact absurd rfl hne
    | cons c t =>
      have hc := hdig c (List.mem_cons_self _ _)
      rw [leadDigits, List.cons_append, List.takeWhile_cons, if_pos hc]
      simp

theorem ipQuad_eq_true {l : Str} :
    ipQuad l = true ↔
      ∃ g1 g2 g3 g4 suf,
        IpGroupStr g1 ∧ IpGroupStr g2 ∧ IpGroupStr g3 ∧ IpGroupStr g4 ∧
        l = g1 ++ '.' :: (g2 ++ '.' :: (g3 ++ '.' :: (g4 ++ suf))) := by
  constructor
  · intro h
    rw [ipQuad] at h
    cases h1 : ipGroupStep l with
    | none => simp [h1] at h
    | some l1 =>
      simp only [h1] at h
      cases h2 : ipGroupStep l1 with
      | none => simp [h2] at h
      | some l2 =>
        simp only [h2] at h
        cases h3 : ipGroupStep l2 with
        | none => simp [h3] at h
        | some l3 =>
          simp only [h3] at h
          obtain ⟨g1, hg1, rfl⟩ := ipGroupStep_eq_some.mp h1
          obtain ⟨g2, hg2, rfl⟩ := ipGroupStep_eq_some.mp h2
          obtain ⟨g3, hg3, rfl⟩ := ipGroupStep_eq_some.mp h3
          obtain ⟨g4, suf, hg4, rfl⟩ := one_le_leadDigits.mp (by simpa using h)
          exact ⟨g1, g2, g3, g4, suf, hg1, hg2, hg3, hg4, rfl⟩
  · rintro ⟨g1, g2, g3, g4, suf, hg1, hg2, hg3, hg4, rfl⟩
    have e1 : ipGroupStep (g1 ++ '.' :: (g2 ++ '.' :: (g3 ++ '.' :: (g4 ++ suf)))) =
        some (g2 ++ '.' :: (g3 ++ '.' :: (g4 ++ suf))) :=
      ipGroupStep_eq_some.mpr ⟨g1, hg1, rfl⟩
    have e2 : ipGroupStep (g2 ++ '.' :: (g3 ++ '.' :: (g4 ++ suf))) =
        some (g3 ++ '.' :: (g4 ++ suf)) :=
      ipGroupStep_eq_some.mpr ⟨g2, hg2, rfl⟩
    have e3 : ipGroupStep (g3 ++ '.' :: (g4 ++ suf)) = some (g4 ++ suf) :=
      ipGroupStep_eq_some.mpr ⟨g3, hg3, rfl⟩
    simp only [ipQuad, e1, e2, e3]
    simpa using one_le_leadDigits.mpr ⟨g4, suf, hg4, rfl⟩

theorem schemeIpAt_ok {s tail : Str} (hs : s = [] ∨ s = str ("s"))
    (hq : ipQuad tail = true) :
    schemeIpAt (str ("http") ++ s ++ str ("://") ++ tail) = true := by
  rcases hs with rfl | rfl
  · have he : schemeIpAt (str ("http") ++ [] ++ str ("://") ++ tail) =
        ipQuad tail := rfl
    rw [he, hq]
  · have he : schemeIpAt (str ("http") ++ str ("s") ++ str ("://") ++ tail) =
        ipQuad tail := rfl
    rw [he, hq]

theorem schemeIpAt_iff_specIpAt {l : Str} : schemeIpAt l = true ↔ SpecIpAt l := by
  constructor
  · intro h
    rw [schemeIpAt] at h
    cases hh : dropPre (str ("http")) l with
    | none => simp [hh] at h
    | some r =>
      simp only [hh] at h
      have hl : l = str ("http") ++ r := dropPre_eq_some.mp hh
      cases hs : dropPre [ 's'] r with
      | some r2 =>
        simp only [hs] at h
        have hr : r = str ("s") ++ r2 := dropPre_eq_some.mp hs
        cases hd : dropPre (str ("://")) r2 with
        | none => simp [hd] at h
        | some r3 =>
          simp only [hd] at h
          have hr2 : r2 = str ("://") ++ r3 := dropPre_eq_some.mp hd
          obtain ⟨g1, g2, g3, g4, suf, hg1, hg2, hg3, hg4, hq3⟩ :=
            ipQuad_eq_true.mp h
          refine ⟨str ("s"), g1, g2, g3, g4, suf, Or.inr rfl,
            hg1, hg2, hg3, hg4, ?_⟩
          rw [hl, hr, hr2, hq3]
          simp [List.append_assoc]
      | none =>
        simp only [hs] at h
        cases hd : dropPre (str ("://")) r with
        | none => simp [hd] at h
        | some r3 =>
          simp only [hd] at h
          have hr2 : r = str ("://") ++ r3 := dropPre_eq_some.mp hd
          obtain ⟨g1, g2, g3, g4, suf, hg1, hg2, hg3, hg4, hq3⟩ :=
            ipQuad_eq_true.mp h
          refine ⟨[], g1, g2, g3, g4, suf, Or.inl rfl,
            hg1, hg2, hg3, hg4, ?_⟩
          rw [hl, hr2, hq3]
          simp [List.append_assoc]
  · rintro ⟨s, g1, g2, g3, g4, suf, hs, hg1, hg2, hg3, hg4, rfl⟩
    have htail : ipQuad (g1 ++ '.' :: (g2 ++ '.' :: (g3 ++ '.' :: (g4 ++ suf)))) = true :=
      ipQuad_eq_true.mpr ⟨g1, g2, g3, g4, suf, hg1, hg2, hg3, hg4, rfl⟩
    have h2 := schemeIpAt_ok hs htail
    have heq : str ("http") ++ s ++ str ("://") ++
          (g1 ++ '.' :: (g2 ++ '.' :: (g3 ++ '.' :: (g4 ++ suf)))) =
        str ("http") ++ s ++ str ("://") ++
          g1 ++ [ '.'] ++ g2 ++ [ '.'] ++ g3 ++ [ '.'] ++ g4 ++ suf := by
      simp [List.append_assoc]
    rw [← heq]
    exact h2

theorem usesIpSearch_append {rest : Str} (h : schemeIpAt rest = true) :
    ∀ pre, usesIpSearch (pre ++ rest) = true := by
  intro pre
  induction pre with
  | nil =>
    cases hrest : rest with
    | nil => rw [hrest] at h; exact absurd h (by decide)
    | cons a t =>
      rw [hrest] at h
      simp [usesIpSearch, h]
  | cons a p ih =>
    rw [List.cons_append, usesIpSearch, ih]
    simp

theorem usesIpSearch_eq_true {u : Str} :
    usesIpSearch u = true ↔
      ∃ pre rest, u = pre ++ rest ∧ schemeIpAt rest = true := by
  constructor
  · intro h
    induction u with
    | nil => simp [usesIpSearch] at h
    | cons a t ih =>
      rw [usesIpSearch] at h
      rcases Bool.or_eq_true_iff.mp h with h1 | h2
      · exact ⟨[], a :: t, rfl, h1⟩
      · obtain ⟨pre, rest, rfl, hr⟩ := ih h2
        exact ⟨a :: pre, rest, rfl, hr⟩
  · rintro ⟨pre, rest, rfl, hr⟩
    exact usesIpSearch_append hr pre

theorem usesIpSearch_iff_specIpPattern {u : Str} :
    usesIpSearch u = true ↔ SpecIpPattern u := by
  rw [usesIpSearch_eq_true]
  constructor
  · rintro ⟨pre, rest, rfl, hr⟩
    obtain ⟨s, g1, g2, g3, g4, suf, hs, h1, h2, h3, h4, rfl⟩ :=
      schemeIpAt_iff_specIpAt.mp hr
    exact ⟨pre, s, g1, g2, g3, g4, suf, hs, h1, h2, h3, h4,
      by simp [List.append_assoc]⟩
  · rintro ⟨pre, s, g1, g2, g3, g4, suf, hs, h1, h2, h3, h4, rfl⟩
    refine ⟨pre, str ("http") ++ s ++ str ("://") ++
      g1 ++ [ '.'] ++ g2 ++ [ '.'] ++ g3 ++ [ '.'] ++ g4 ++ suf,
      by simp [List.append_assoc],
      schemeIpAt_iff_specIpAt.mpr ⟨s, g1, g2, g3, g4, suf, hs, h1, h2, h3, h4, rfl⟩⟩

/-- C4: uses_ip is 1 exactly when the URL contains the pattern http or
https, then ://, then four dot-separated 1-to-3-digit groups at the start
of the authority (no 0-255 bounds, no IPv6), and 0 otherwise; in
particular it is 1 on "http://192.168.1.1/path" and 0 on
"http://example.com". -/
theorem C4_uses_ip_flag (u : Str) (m : List (Str × PyNum))
    (h : extract_url_features u = Except.ok m) :
    (flookup m (str ("uses_ip")) = some (PyNum.int 1) ↔ SpecIpPattern u) ∧
    (flookup m (str ("uses_ip")) = some (PyNum.int 0) ↔ ¬ SpecIpPattern u) ∧
    (extract_url_features (str ("http://192.168.1.1/path"))).map
        (fun m2 => flookup m2 (str ("uses_ip"))) =
      Except.ok (some (PyNum.int 1)) ∧
    (extract_url_features (str ("http://example.com"))).map
        (fun m2 => flookup m2 (str ("uses_ip"))) =
      Except.ok (some (PyNum.int 0)) := by
  obtain ⟨p, hp, rfl⟩ := extract_ok_iff.mp h
  have hv : flookup (featureList u p) (str ("uses_ip")) =
      some (PyNum.int (boolInt (usesIpSearch u))) := rfl
  rw [hv]
  by_cases hb : usesIpSearch u = true
  · have hpat := usesIpSearch_iff_specIpPattern.mp hb
    refine ⟨?_, ?_, rfl, rfl⟩ <;> simp [boolInt, hb, hpat]
  · have hpat := (not_iff_not.mpr usesIpSearch_iff_specIpPattern).mp hb
    refine ⟨?_, ?_, rfl, rfl⟩ <;> simp [boolInt, hb, hpat]

/-- Witness for C4 at the concrete URL "https://10.0.0.1". -/
theorem C4_uses_ip_flag_witness :
    ∃ m, extract_url_features (str ("https://10.0.0.1")) = Except.ok m ∧
      (flookup m (str ("uses_ip")) = some (PyNum.int 1) ↔
        SpecIpPattern (str ("https://10.0.0.1"))) :=
  ⟨_, rfl, (C4_uses_ip_flag (str ("https://10.0.0.1")) _ rfl).1⟩
